import Mathlib

/-!
# Whispered — batch transcription orchestration pipeline, shallow embedding

A shallow embedding of the core of the Whispered repository: the diarization
speaker lookup and merge (`src/diarizer.py`), the single-job transcription
pipeline (`src/transcriber.py`, `TranscriptionWorker.run`), and the batch
orchestrator (`src/batch_processor.py`, `BatchWorker` / `BatchProcessor`).

Modelling conventions:
* Python floats carrying times are modelled as rationals (`ℚ`); the code only
  compares, adds and halves them.
* External effects (file probes, FFmpeg, model loading, the whisper engine,
  pyannote) are inputs of the model, packaged in environment structures.
* The cooperative cancellation flag is monotone: it is modelled by the index
  of the first checkpoint at which the flag is observed set (`Option ℕ`,
  `none` = never observed set).
-/

namespace Whispered

/-! ## Data model: segments and results (`src/transcriber.py`, `src/diarizer.py`) -/

/-- `Segment` dataclass of `src/transcriber.py` (a transcription segment).
`end` is a Lean keyword, so the field is written `«end»`. -/
structure Segment where
  start : ℚ
  «end» : ℚ
  text : String
  speaker : Option String := none
deriving DecidableEq, Repr

/-- `TranscriptionResult` dataclass of `src/transcriber.py`. -/
structure TranscriptionResult where
  segments : List Segment
  language : String
  duration : ℚ
deriving DecidableEq, Repr

/-- `TranscriptionResult.full_text`: texts trimmed and joined with single spaces. -/
def full_text (r : TranscriptionResult) : String :=
  String.intercalate " " (r.segments.map (fun seg => seg.text.trim))

/-- `SpeakerSegment` dataclass of `src/diarizer.py`. -/
structure SpeakerSegment where
  start : ℚ
  «end» : ℚ
  speaker : String
  confidence : ℚ := 1
deriving DecidableEq, Repr

/-- `DiarizationResult` dataclass of `src/diarizer.py`. -/
structure DiarizationResult where
  segments : List SpeakerSegment
  num_speakers : ℕ
  duration : ℚ
deriving DecidableEq, Repr

/-- The loop of `DiarizationResult.get_speaker_at`: return the speaker of the
first segment (in list order) whose closed interval `[start, end]` contains
`time`. -/
def getSpeakerAtGo (time : ℚ) : List SpeakerSegment → Option String
  | [] => none
  | seg :: rest =>
    if seg.start ≤ time ∧ time ≤ seg.«end» then some seg.speaker
    else getSpeakerAtGo time rest

/-- `DiarizationResult.get_speaker_at`. -/
def DiarizationResult.get_speaker_at (d : DiarizationResult) (time : ℚ) : Option String :=
  getSpeakerAtGo time d.segments

/-- `merge_transcription_with_diarization` of `src/diarizer.py`:
midpoint lookup, then start-time fallback, then the literal `"Unknown"`. -/
def merge_transcription_with_diarization
    (transcription_segments : List (ℚ × ℚ × String)) (diarization : DiarizationResult) :
    List (ℚ × ℚ × String × String) :=
  transcription_segments.map (fun t =>
    let start := t.1
    let «end» := t.2.1
    let text := t.2.2
    let midpoint := (start + «end») / 2
    let speaker :=
      match diarization.get_speaker_at midpoint with
      | some s => some s
      | none => diarization.get_speaker_at start
    (start, «end», text, speaker.getD "Unknown"))

/-- The merge loop of `TranscriptionWorker._add_speaker_labels`
(`src/transcriber.py` lines 240–246): midpoint lookup, then start-time
fallback, the resulting `Option` being written to `seg.speaker` as is. -/
def addSpeakerLabels (segments : List Segment) (diarization : DiarizationResult) :
    List Segment :=
  segments.map (fun seg =>
    let midpoint := (seg.start + seg.«end») / 2
    let speaker :=
      match diarization.get_speaker_at midpoint with
      | some s => some s
      | none => diarization.get_speaker_at seg.start
    { seg with speaker := speaker })

/-! ## Single-job pipeline (`TranscriptionWorker.run`, `src/transcriber.py`) -/

/-- Terminal outcome of one single-job pipeline run as observed through its
`finished`/`error` callbacks. -/
inductive PipeOutcome
  | ok (r : TranscriptionResult)
  | err (e : String)
deriving DecidableEq, Repr

/-- The tail of `TranscriptionWorker.run` (lines 191–206): a run with zero
segments is reported on the error channel; otherwise the result is built with
`duration = segments[-1].end` and the language sentinel `"detected"` for
auto-detection. -/
def finishSegments (segments : List Segment) (language : String) : PipeOutcome :=
  if h : segments = [] then
    .err "No speech detected in the audio file."
  else
    .ok { segments := segments
          language := if language ≠ "auto" then language else "detected"
          duration := (segments.getLast h).«end» }

/-- The `'CUDA' in error_msg or 'cuda' in error_msg` annotation of the
exception handler (lines 208–212); `s` occurs in `msg` iff splitting on `s`
yields more than one piece. -/
def cudaAnnotate (msg : String) : String :=
  if (msg.splitOn "CUDA").length > 1 || (msg.splitOn "cuda").length > 1 then
    msg ++ "\n\nTip: Try selecting CPU mode in settings."
  else msg

/-- `FORMATS_NEEDING_CONVERSION` of `src/transcriber.py`. -/
def FORMATS_NEEDING_CONVERSION : List String :=
  [".m4a", ".aac", ".wma", ".opus", ".ogg", ".flac",
   ".mp4", ".mkv", ".avi", ".mov", ".webm", ".wmv", ".flv", ".m4v"]

/-- Python `str.lower()` restricted to ASCII letters (sufficient for file
extensions). -/
def strLower (s : String) : String :=
  ⟨s.toList.map (fun c =>
    if 'A' ≤ c ∧ c ≤ 'Z' then Char.ofNat (c.toNat + 32) else c)⟩

/-- `os.path.basename`: the part after the last `/`. -/
def basename (p : String) : String :=
  ⟨(p.toList.reverse.takeWhile (fun c => c ≠ '/')).reverse⟩

/-- Base part of `os.path.splitext` on a bare file name: everything before the
last dot, where the leading dots of the name never count as a separator. -/
def splitextBase (name : String) : String :=
  let cs := name.toList
  let lead := cs.takeWhile (fun c => c = '.')
  let rest := cs.drop lead.length
  if rest.any (fun c => c = '.') then
    ⟨lead ++ ((rest.reverse.dropWhile (fun c => c ≠ '.')).drop 1).reverse⟩
  else name

/-- Extension part of `os.path.splitext` (applied to the path's basename):
the last dot of the basename and what follows, empty when the only dots are
leading ones. -/
def fileExt (p : String) : String :=
  let cs := (basename p).toList
  let lead := cs.takeWhile (fun c => c = '.')
  let rest := cs.drop lead.length
  if rest.any (fun c => c = '.') then
    ⟨'.' :: (rest.reverse.takeWhile (fun c => c ≠ '.')).reverse⟩
  else ""

/-- Monotone cooperative-cancellation flag: `cancelFrom = some c` means the
flag is observed set at every checkpoint `t ≥ c` and clear before. -/
def cancelledAt (cancelFrom : Option ℕ) (t : ℕ) : Bool :=
  match cancelFrom with
  | none => false
  | some c => c ≤ t

/-- External environment of one `TranscriptionWorker.run` invocation. -/
structure TransEnv where
  filepath : String
  model_name : String
  language : String
  translate : Bool
  enable_diarization : Bool
  /-- `os.path.isfile(self.filepath)` -/
  fileIsFile : Bool
  /-- `_convert_to_wav` returned a path (FFmpeg present, exit 0, file written) -/
  convertSucceeds : Bool
  /-- checkpoints, in order: line 133 (after conversion), 146 (after model
  load), 164 (after parameter prep), 171 (after `model.transcribe`),
  and the diarization guard of line 188 -/
  cancelFrom : Option ℕ
  /-- `Model(self.model_name, models_dir=...)`: raises with a message or loads -/
  modelLoad : Except String Unit
  /-- `model.transcribe(...)`: raises with a message or returns raw segments
  `(t0, t1, text)` with times in centiseconds -/
  transcribeRaw : Except String (List (ℤ × ℤ × String))
  /-- `_add_speaker_labels` inner outcome: `some d` when the diarizer is
  available and `diarize` returned `d`; `none` when unavailable or any step
  raised (the original segments are then kept) -/
  diarization : Option DiarizationResult

/-- Observable result of one `TranscriptionWorker.run`: emitted error
messages, emitted result, whether a temporary converted WAV file was created,
and whether it still exists when `run` exits. -/
structure RunResult where
  emittedErrors : List String
  emittedResult : Option TranscriptionResult
  tempCreated : Bool
  tempExistsAtExit : Bool
deriving DecidableEq, Repr

/-- The `finally` block of `TranscriptionWorker.run` (lines 213–219), through
which every exit path passes: if a temporary WAV file was created (at which
point it exists) and still exists, it is removed. -/
def finallyCleanup (errs : List String) (res : Option TranscriptionResult)
    (tempCreated : Bool) : RunResult :=
  let tempExists := tempCreated
  { emittedErrors := errs
    emittedResult := res
    tempCreated := tempCreated
    tempExistsAtExit := if tempCreated && tempExists then false else tempExists }

/-- Lines 191–206 of `TranscriptionWorker.run`: classify the assembled
segments through `finishSegments`, emit on the matching channel, and exit
through the `finally` block. -/
def finishAndCleanup (segments : List Segment) (language : String)
    (tempCreated : Bool) : RunResult :=
  match finishSegments segments language with
  | .err e => finallyCleanup [e] none tempCreated
  | .ok r => finallyCleanup [] (some r) tempCreated

/-- `TranscriptionWorker.run` (lines 111–219), with progress emissions
omitted. Every `return` and the exception handler route through
`finallyCleanup`, mirroring `try`/`finally`. -/
def runTranscription (env : TransEnv) : RunResult :=
  if !env.fileIsFile then
    finallyCleanup ["File not found: " ++ env.filepath] none false
  else
    let file_ext := strLower (fileExt env.filepath)
    let tempCreated := decide (file_ext ∈ FORMATS_NEEDING_CONVERSION) && env.convertSucceeds
    if cancelledAt env.cancelFrom 0 then finallyCleanup [] none tempCreated
    else
      match env.modelLoad with
      | .error e =>
          finallyCleanup
            ["Failed to load model '" ++ env.model_name ++ "': " ++ e] none tempCreated
      | .ok _ =>
        if cancelledAt env.cancelFrom 1 then finallyCleanup [] none tempCreated
        else if cancelledAt env.cancelFrom 2 then finallyCleanup [] none tempCreated
        else
          match env.transcribeRaw with
          | .error e => finallyCleanup [cudaAnnotate e] none tempCreated
          | .ok raw =>
            if cancelledAt env.cancelFrom 3 then finallyCleanup [] none tempCreated
            else
              let segments := raw.map (fun s =>
                { start := (s.1 : ℚ) / 100
                  «end» := (s.2.1 : ℚ) / 100
                  text := s.2.2
                  speaker := none : Segment })
              let segments :=
                if env.enable_diarization && !cancelledAt env.cancelFrom 4 then
                  match env.diarization with
                  | some d => addSpeakerLabels segments d
                  | none => segments
                else segments
              finishAndCleanup segments env.language tempCreated

/-- The terminal callback observed by `BatchWorker._process_item`'s completion
event: the single emission of a run, if any (a run cancelled between
checkpoints emits nothing). -/
def deliveredOutcome (env : TransEnv) : Option PipeOutcome :=
  let rr := runTranscription env
  match rr.emittedErrors with
  | e :: _ => some (.err e)
  | [] => rr.emittedResult.map .ok

/-! ## Batch orchestrator (`src/batch_processor.py`) -/

/-- `BatchStatus` enum. -/
inductive BatchStatus
  | pending
  | processing
  | complete
  | error
  | cancelled
deriving DecidableEq, Repr

/-- `BatchItem` dataclass. -/
structure BatchItem where
  filepath : String
  status : BatchStatus := .pending
  progress : ℕ := 0
  message : String := ""
  result : Option TranscriptionResult := none
  error : Option String := none
deriving DecidableEq, Repr

/-- `BatchItem.is_complete`: the item is in a terminal state. -/
def BatchItem.is_complete (item : BatchItem) : Bool :=
  item.status = BatchStatus.complete ∨ item.status = BatchStatus.error ∨
    item.status = BatchStatus.cancelled

/-- Signals of `BatchWorker` / `BatchProcessor` (progress forwarding kept only
as the last value observed per item). -/
inductive BatchSignal
  | itemStarted (index : ℕ)
  | itemProgress (index : ℕ) (pct : ℕ) (msg : String)
  | itemFinished (index : ℕ) (result : Option TranscriptionResult)
  | itemError (index : ℕ) (e : String)
  | batchFinished
deriving DecidableEq, Repr

/-- `BatchWorker._process_item` (lines 104–157), as the transformation of the
item once the completion event has fired. `o` is the delivered terminal
callback value, `pm` the last progress callback's `(pct, msg)` if any fired,
and `cAfter` the value of `self._cancelled` read after the wait. The
`if error_holder[0]:` test is Python truthiness: an empty error string is
treated as the success branch (whose `result_holder[0]` is then `None`). -/
def progressUpdate (pm : Option (ℕ × String)) (item : BatchItem) : BatchItem :=
  match pm with
  | some (p, m) => { item with progress := p, message := m }
  | none => item

/-- The branch of `_process_item` after `finished_event.wait()` returns. -/
def afterWait (o : PipeOutcome) (cAfter : Bool) (item : BatchItem) : BatchItem :=
  if cAfter then { item with status := BatchStatus.cancelled }
  else
    match o with
    | .err e =>
        if e ≠ "" then { item with status := BatchStatus.error, error := some e }
        else { item with status := BatchStatus.complete, result := none, progress := 100 }
    | .ok r => { item with status := BatchStatus.complete, result := some r, progress := 100 }

def processItem (o : PipeOutcome) (pm : Option (ℕ × String)) (cAfter : Bool)
    (item : BatchItem) : BatchItem :=
  afterWait o cAfter (progressUpdate pm { item with status := BatchStatus.processing })

/-- The signals `_process_item` emits for index `i` (the last forwarded
progress signal kept, intermediate ones elided). -/
def processItemSignals (i : ℕ) (o : PipeOutcome) (pm : Option (ℕ × String))
    (cAfter : Bool) : List BatchSignal :=
  [.itemStarted i] ++
    (match pm with
     | some (p, m) => [.itemProgress i p m]
     | none => []) ++
    (if cAfter then []
     else
       match o with
       | .err e => if e ≠ "" then [.itemError i e] else [.itemFinished i none]
       | .ok r => [.itemFinished i (some r)])

/-- Environment of one `BatchWorker.run`: per-index delivered pipeline
outcome, per-index last progress callback, and the cancellation timeline.
Checkpoints: the loop-top check for index `i` is observed at time `2*i`, the
after-wait check inside `_process_item` for index `i` at time `2*i + 1`. -/
structure WorkerEnv where
  out : ℕ → PipeOutcome
  prog : ℕ → Option (ℕ × String)
  cancelFrom : Option ℕ

/-- The loop of `BatchWorker.run` (lines 89–102) from index `i` on: once the
cancellation flag is observed at the loop top, the item is marked Cancelled
unconditionally; otherwise a non-Pending item is skipped; otherwise the item
is processed. -/
def runWorkerGo (env : WorkerEnv) : ℕ → List BatchItem → List BatchItem × List BatchSignal
  | _, [] => ([], [])
  | i, item :: rest =>
    if cancelledAt env.cancelFrom (2 * i) then
      let r := runWorkerGo env (i + 1) rest
      ({ item with status := BatchStatus.cancelled } :: r.1, r.2)
    else if item.status ≠ BatchStatus.pending then
      let r := runWorkerGo env (i + 1) rest
      (item :: r.1, r.2)
    else
      let cAfter := cancelledAt env.cancelFrom (2 * i + 1)
      let item' := processItem (env.out i) (env.prog i) cAfter item
      let r := runWorkerGo env (i + 1) rest
      (item' :: r.1, processItemSignals i (env.out i) (env.prog i) cAfter ++ r.2)

/-- `BatchWorker.run`: the loop over all items followed by the single
`batch_finished` emission. -/
def runWorker (env : WorkerEnv) (items : List BatchItem) :
    List BatchItem × List BatchSignal :=
  let r := runWorkerGo env 0 items
  (r.1, r.2 ++ [.batchFinished])

/-- State of a `BatchProcessor`: its item list and whether a worker is
running (`is_processing`). -/
structure BatchState where
  items : List BatchItem
  running : Bool := false
deriving DecidableEq, Repr

/-- `BatchProcessor.add_file`: reject missing files (`isfile` is the
`os.path.isfile` probe) and duplicate paths; otherwise append a fresh
Pending item. -/
def addFile (isfile : Bool) (s : BatchState) (path : String) : BatchState × Bool :=
  if !isfile then (s, false)
  else if s.items.any (fun item => item.filepath = path) then (s, false)
  else ({ s with items := s.items ++ [{ filepath := path }] }, true)

/-- `BatchProcessor.remove_item`: reject out-of-range indices and items
currently Processing. -/
def removeItem (s : BatchState) (index : ℕ) : BatchState × Bool :=
  if h : index < s.items.length then
    if (s.items.get ⟨index, h⟩).status = BatchStatus.processing then (s, false)
    else ({ s with items := s.items.eraseIdx index }, true)
  else (s, false)

/-- `BatchProcessor.clear_completed`: drop items in a terminal state. -/
def clearCompleted (s : BatchState) : BatchState :=
  { s with items := s.items.filter (fun item => !item.is_complete) }

/-- The reset loop of `BatchProcessor.start` (lines 270–276): Error and
Cancelled items go back to Pending with progress 0 and error cleared. -/
def resetItem (item : BatchItem) : BatchItem :=
  if item.status = BatchStatus.error ∨ item.status = BatchStatus.cancelled then
    { item with status := BatchStatus.pending, progress := 0, error := none }
  else item

/-- `BatchProcessor.start` (lines 254–296) together with the spawned worker's
whole run (run-to-completion view): no-op when already running or the queue is
empty; otherwise reset Error/Cancelled items and run the worker, whose signals
(including the one `batch_finished`) are forwarded. -/
def startRun (env : WorkerEnv) (s : BatchState) : BatchState × List BatchSignal :=
  if s.running then (s, [])
  else if s.items = [] then (s, [])
  else
    let items' := s.items.map resetItem
    let r := runWorker env items'
    ({ items := r.1, running := false }, r.2)

/-! ## Export (`BatchProcessor.export_all`, lines 313–348) -/

/-- The keys of `EXPORT_FORMATS` (`src/exporters.py`). -/
def EXPORT_FORMAT_KEYS : List String := ["txt", "txt_ts", "srt", "vtt", "json"]

/-- `os.path.join(output_dir, name)` for a relative `name`. -/
def joinPath (dir name : String) : String :=
  if dir = "" then name
  else if dir.toList.getLast? = some '/' then dir ++ name else dir ++ "/" ++ name

/-- The output path `export_all` derives for an item: the input's base name
(directory stripped, extension split off) plus the format's extension, inside
`output_dir`. -/
def outputPathFor (output_dir format_key filepath : String) : String :=
  let base_name := splitextBase (basename filepath)
  let ext := if format_key = "txt" ∨ format_key = "txt_ts" then "txt" else format_key
  joinPath output_dir (base_name ++ "." ++ ext)

/-- The model filesystem maps a path to the `(result, format)` payload last
written there; `export_result` writes that payload for a known format and
raises (`none`) for an unknown one. -/
def export_result_fs (fs : String → Option (TranscriptionResult × String))
    (r : TranscriptionResult) (filepath format_key : String) :
    Option (String → Option (TranscriptionResult × String)) :=
  if format_key ∈ EXPORT_FORMAT_KEYS then
    some (fun p => if p = filepath then some (r, format_key) else fs p)
  else none

/-- The loop of `export_all`: non-Complete or result-less items are skipped;
an item whose individual export raises is silently skipped; otherwise the
output path is recorded in the created-files list and the file written. -/
def exportAllGo (output_dir format_key : String) :
    List BatchItem → (String → Option (TranscriptionResult × String)) →
    List String × (String → Option (TranscriptionResult × String))
  | [], fs => ([], fs)
  | item :: rest, fs =>
    match item.result with
    | some r =>
      if item.status = BatchStatus.complete then
        let output_path := outputPathFor output_dir format_key item.filepath
        match export_result_fs fs r output_path format_key with
        | some fs' =>
          let t := exportAllGo output_dir format_key rest fs'
          (output_path :: t.1, t.2)
        | none => exportAllGo output_dir format_key rest fs
      else exportAllGo output_dir format_key rest fs
    | none => exportAllGo output_dir format_key rest fs

/-- `BatchProcessor.export_all`. -/
def exportAll (fs : String → Option (TranscriptionResult × String))
    (items : List BatchItem) (output_dir format_key : String) :
    List String × (String → Option (TranscriptionResult × String)) :=
  exportAllGo output_dir format_key items fs

/-! ## Reachable batch states -/

/-- An outcome a single-job pipeline can actually deliver to the batch
worker's completion event. -/
def ValidOutcome (o : PipeOutcome) : Prop :=
  ∃ env : TransEnv, deliveredOutcome env = some o

/-- A worker environment whose every delivered outcome is producible by the
single-job pipeline. -/
def ValidWorkerEnv (env : WorkerEnv) : Prop :=
  ∀ i, ValidOutcome (env.out i)

/-- States reachable through the batch orchestrator's operations, each
worker run taken to completion. -/
inductive Reachable : BatchState → Prop
  | init : Reachable { items := [], running := false }
  | add (s : BatchState) (path : String) (isfile : Bool) :
      Reachable s → Reachable (addFile isfile s path).1
  | remove (s : BatchState) (index : ℕ) :
      Reachable s → Reachable (removeItem s index).1
  | clearCompleted (s : BatchState) :
      Reachable s → Reachable (clearCompleted s)
  | run (s : BatchState) (env : WorkerEnv) :
      Reachable s → ValidWorkerEnv env → Reachable (startRun env s).1

/-! ## Lemmas about the single-job pipeline -/

theorem finishSegments_nil (lang : String) :
    finishSegments [] lang = .err "No speech detected in the audio file." := rfl

theorem finishSegments_ok {segments : List Segment} {lang : String} {r : TranscriptionResult}
    (h : finishSegments segments lang = .ok r) :
    ∃ hne : segments ≠ [],
      r.segments = segments ∧ r.duration = (segments.getLast hne).«end» := by
  unfold finishSegments at h
  split at h
  · exact absurd h (by simp)
  · rename_i hne
    refine ⟨hne, ?_, ?_⟩ <;> cases h <;> rfl

theorem finishAndCleanup_result {segments : List Segment} {lang : String}
    {tc : Bool} {r : TranscriptionResult}
    (h : (finishAndCleanup segments lang tc).emittedResult = some r) :
    finishSegments segments lang = .ok r := by
  unfold finishAndCleanup at h
  split at h
  · simp [finallyCleanup] at h
  · rename_i r' hok
    simp only [finallyCleanup] at h
    cases h
    exact hok

theorem runTranscription_result {env : TransEnv} {r : TranscriptionResult}
    (h : (runTranscription env).emittedResult = some r) :
    ∃ hne : r.segments ≠ [], r.duration = (r.segments.getLast hne).«end» := by
  have key : ∃ segments, finishSegments segments env.language = .ok r := by
    unfold runTranscription at h
    repeat' split at h
    all_goals
      first
      | exact ⟨_, finishAndCleanup_result h⟩
      | (simp [finallyCleanup] at h)
  obtain ⟨segments, hok⟩ := key
  obtain ⟨hne, hseg, hdur⟩ := finishSegments_ok hok
  subst hseg
  exact ⟨hne, hdur⟩

theorem ValidOutcome_ok {o : PipeOutcome} (h : ValidOutcome o) :
    ∀ r, o = .ok r → r.segments ≠ [] := by
  rintro r rfl
  obtain ⟨env, henv⟩ := h
  simp only [deliveredOutcome] at henv
  rcases herr : (runTranscription env).emittedErrors with _ | ⟨e, tl⟩ <;> rw [herr] at henv
  · rcases hres : (runTranscription env).emittedResult with _ | r' <;> rw [hres] at henv
    · simp at henv
    · simp only [Option.map_some, Option.some.injEq] at henv
      cases henv
      obtain ⟨hne, -⟩ := runTranscription_result hres
      exact hne
  · simp at henv

/-! ## Lemmas about the batch worker loop -/

/-- The transformation `BatchWorker.run` applies to the item at loop index
`k`: mark Cancelled when the flag was observed at the loop top, skip
non-Pending items, otherwise process. -/
def workerStep (env : WorkerEnv) (k : ℕ) (item : BatchItem) : BatchItem :=
  if cancelledAt env.cancelFrom (2 * k) then { item with status := BatchStatus.cancelled }
  else if item.status ≠ BatchStatus.pending then item
  else processItem (env.out k) (env.prog k) (cancelledAt env.cancelFrom (2 * k + 1)) item

theorem runWorkerGo_fst_get? (env : WorkerEnv) :
    ∀ (items : List BatchItem) (i j : ℕ),
      (runWorkerGo env i items).1.get? j = (items.get? j).map (workerStep env (i + j)) := by
  intro items
  induction items with
  | nil => intro i j; simp [runWorkerGo]
  | cons item rest ih =>
    intro i j
    by_cases hc : cancelledAt env.cancelFrom (2 * i) = true
    · cases j with
      | zero => simp [runWorkerGo, workerStep, hc]
      | succ j =>
        rw [show i + (j + 1) = i + 1 + j by omega]
        simpa [runWorkerGo, hc] using ih (i + 1) j
    · rw [Bool.not_eq_true] at hc
      by_cases hp : item.status = BatchStatus.pending
      · cases j with
        | zero => simp [runWorkerGo, workerStep, hc, hp]
        | succ j =>
          rw [show i + (j + 1) = i + 1 + j by omega]
          simpa [runWorkerGo, hc, hp] using ih (i + 1) j
      · cases j with
        | zero => simp [runWorkerGo, workerStep, hc, hp]
        | succ j =>
          rw [show i + (j + 1) = i + 1 + j by omega]
          simpa [runWorkerGo, hc, hp] using ih (i + 1) j

theorem runWorkerGo_fst_length (env : WorkerEnv) :
    ∀ (items : List BatchItem) (i : ℕ),
      (runWorkerGo env i items).1.length = items.length := by
  intro items
  induction items with
  | nil => intro i; simp [runWorkerGo]
  | cons item rest ih =>
    intro i
    unfold runWorkerGo
    by_cases hc : cancelledAt env.cancelFrom (2 * i) = true
    · simp [hc, ih]
    · by_cases hp : item.status = BatchStatus.pending <;>
        simp [hc, hp, ih]

theorem runWorker_fst_get? (env : WorkerEnv) (items : List BatchItem) (j : ℕ) :
    (runWorker env items).1.get? j = (items.get? j).map (workerStep env j) := by
  simpa using runWorkerGo_fst_get? env items 0 j

theorem runWorker_fst_length (env : WorkerEnv) (items : List BatchItem) :
    (runWorker env items).1.length = items.length :=
  runWorkerGo_fst_length env items 0

theorem batchFinished_not_mem_processItemSignals (i : ℕ) (o : PipeOutcome)
    (pm : Option (ℕ × String)) (c : Bool) :
    BatchSignal.batchFinished ∉ processItemSignals i o pm c := by
  unfold processItemSignals
  rcases pm with _ | ⟨p, m⟩ <;> rcases c <;> rcases o with r | e <;>
    simp <;> split <;> simp

theorem batchFinished_not_mem_runWorkerGo (env : WorkerEnv) :
    ∀ (items : List BatchItem) (i : ℕ),
      BatchSignal.batchFinished ∉ (runWorkerGo env i items).2 := by
  intro items
  induction items with
  | nil => intro i; simp [runWorkerGo]
  | cons item rest ih =>
    intro i
    by_cases hc : cancelledAt env.cancelFrom (2 * i) = true
    · simpa [runWorkerGo, hc] using ih (i + 1)
    · rw [Bool.not_eq_true] at hc
      by_cases hp : item.status = BatchStatus.pending
      · intro hmem
        simp only [runWorkerGo, hc, hp, Bool.false_eq_true, if_false, ite_true,
          if_true, ne_eq, not_true_eq_false, List.mem_append] at hmem
        rcases hmem with hmem | hmem
        · exact batchFinished_not_mem_processItemSignals _ _ _ _ hmem
        · exact ih (i + 1) hmem
      · simpa [runWorkerGo, hc, hp] using ih (i + 1)

/-- The indices for which `item_started` was emitted, in emission order. -/
def startedIndices (sigs : List BatchSignal) : List ℕ :=
  sigs.filterMap (fun s =>
    match s with
    | .itemStarted i => some i
    | _ => none)

theorem startedIndices_processItemSignals (i : ℕ) (o : PipeOutcome)
    (pm : Option (ℕ × String)) (c : Bool) :
    startedIndices (processItemSignals i o pm c) = [i] := by
  unfold processItemSignals startedIndices
  rcases pm with _ | ⟨p, m⟩ <;> rcases c <;> rcases o with r | e <;> simp
  · split <;> simp [List.filterMap]
  · split <;> simp [List.filterMap]

theorem mem_startedIndices_runWorkerGo (env : WorkerEnv) :
    ∀ (items : List BatchItem) (i j : ℕ),
      j ∈ startedIndices (runWorkerGo env i items).2 ↔
        ∃ (k : ℕ) (h : k < items.length),
          j = i + k ∧ (items.get ⟨k, h⟩).status = BatchStatus.pending ∧
            cancelledAt env.cancelFrom (2 * (i + k)) = false := by
  intro items
  induction items with
  | nil => intro i j; simp [runWorkerGo, startedIndices]
  | cons item rest ih =>
    intro i j
    by_cases hc : cancelledAt env.cancelFrom (2 * i) = true
    · rw [show (runWorkerGo env i (item :: rest)).2 = (runWorkerGo env (i + 1) rest).2 by
        simp [runWorkerGo, hc]]
      rw [ih (i + 1) j]
      constructor
      · rintro ⟨k, hk, rfl, hp, hcf⟩
        exact ⟨k + 1, by simpa using hk, by omega,
          by simpa using hp, by rw [show 2 * (i + (k + 1)) = 2 * (i + 1 + k) by omega]; exact hcf⟩
      · rintro ⟨k, hk, rfl, hp, hcf⟩
        cases k with
        | zero =>
          exfalso
          rw [Nat.add_zero] at hcf
          rw [hc] at hcf
          simp at hcf
        | succ k =>
          exact ⟨k, by simpa using hk, by omega, by simpa using hp,
            by rw [show 2 * (i + 1 + k) = 2 * (i + (k + 1)) by omega]; exact hcf⟩
    · rw [Bool.not_eq_true] at hc
      by_cases hp : item.status = BatchStatus.pending
      · rw [show (runWorkerGo env i (item :: rest)).2 =
            processItemSignals i (env.out i) (env.prog i)
              (cancelledAt env.cancelFrom (2 * i + 1)) ++ (runWorkerGo env (i + 1) rest).2 by
          simp [runWorkerGo, hc, hp]]
        rw [show startedIndices (processItemSignals i (env.out i) (env.prog i)
              (cancelledAt env.cancelFrom (2 * i + 1)) ++ (runWorkerGo env (i + 1) rest).2) =
            [i] ++ startedIndices (runWorkerGo env (i + 1) rest).2 by
          unfold startedIndices
          rw [List.filterMap_append]
          rw [show (processItemSignals i (env.out i) (env.prog i)
              (cancelledAt env.cancelFrom (2 * i + 1))).filterMap _ = [i] from
            startedIndices_processItemSignals ..]]
        simp only [List.mem_append, List.mem_singleton, ih (i + 1) j]
        constructor
        · rintro (rfl | ⟨k, hk, rfl, hpk, hcf⟩)
          · exact ⟨0, by simp, by omega, by simpa using hp, by simpa using hc⟩
          · exact ⟨k + 1, by simpa using hk, by omega, by simpa using hpk,
              by rw [show 2 * (i + (k + 1)) = 2 * (i + 1 + k) by omega]; exact hcf⟩
        · rintro ⟨k, hk, rfl, hpk, hcf⟩
          cases k with
          | zero => left; omega
          | succ k =>
            right
            exact ⟨k, by simpa using hk, by omega, by simpa using hpk,
              by rw [show 2 * (i + 1 + k) = 2 * (i + (k + 1)) by omega]; exact hcf⟩
      · rw [show (runWorkerGo env i (item :: rest)).2 = (runWorkerGo env (i + 1) rest).2 by
          simp [runWorkerGo, hc, hp]]
        rw [ih (i + 1) j]
        constructor
        · rintro ⟨k, hk, rfl, hpk, hcf⟩
          exact ⟨k + 1, by simpa using hk, by omega, by simpa using hpk,
            by rw [show 2 * (i + (k + 1)) = 2 * (i + 1 + k) by omega]; exact hcf⟩
        · rintro ⟨k, hk, rfl, hpk, hcf⟩
          cases k with
          | zero => exact absurd (by simpa using hpk) hp
          | succ k =>
            exact ⟨k, by simpa using hk, by omega, by simpa using hpk,
              by rw [show 2 * (i + 1 + k) = 2 * (i + (k + 1)) by omega]; exact hcf⟩

theorem startedIndices_runWorkerGo_pairwise (env : WorkerEnv) :
    ∀ (items : List BatchItem) (i : ℕ),
      (startedIndices (runWorkerGo env i items).2).Pairwise (fun a b => a < b) := by
  intro items
  induction items with
  | nil => intro i; simp [runWorkerGo, startedIndices]
  | cons item rest ih =>
    intro i
    by_cases hc : cancelledAt env.cancelFrom (2 * i) = true
    · rw [show (runWorkerGo env i (item :: rest)).2 = (runWorkerGo env (i + 1) rest).2 by
        simp [runWorkerGo, hc]]
      exact ih (i + 1)
    · rw [Bool.not_eq_true] at hc
      by_cases hp : item.status = BatchStatus.pending
      · rw [show (runWorkerGo env i (item :: rest)).2 =
            processItemSignals i (env.out i) (env.prog i)
              (cancelledAt env.cancelFrom (2 * i + 1)) ++ (runWorkerGo env (i + 1) rest).2 by
          simp [runWorkerGo, hc, hp]]
        rw [show startedIndices (processItemSignals i (env.out i) (env.prog i)
              (cancelledAt env.cancelFrom (2 * i + 1)) ++ (runWorkerGo env (i + 1) rest).2) =
            i :: startedIndices (runWorkerGo env (i + 1) rest).2 by
          unfold startedIndices
          rw [List.filterMap_append]
          rw [show (processItemSignals i (env.out i) (env.prog i)
              (cancelledAt env.cancelFrom (2 * i + 1))).filterMap _ = [i] from
            startedIndices_processItemSignals ..]
          rfl]
        refine List.Pairwise.cons ?_ (ih (i + 1))
        intro j hj
        obtain ⟨k, -, rfl, -, -⟩ := (mem_startedIndices_runWorkerGo env rest (i + 1) j).mp hj
        omega
      · rw [show (runWorkerGo env i (item :: rest)).2 = (runWorkerGo env (i + 1) rest).2 by
          simp [runWorkerGo, hc, hp]]
        exact ih (i + 1)

/-! ## The per-item invariant of reachable batch states -/

/-- Invariant each batch item satisfies in every state the orchestrator's
operations can reach (worker runs taken to completion): the item is never
left `Processing`, every stored result has at least one segment, and the
error field holds a non-empty string exactly when the status is `Error`. -/
def ItemInv (item : BatchItem) : Prop :=
  item.status ≠ BatchStatus.processing ∧
  (∀ r, item.result = some r → r.segments ≠ []) ∧
  (item.status = BatchStatus.error ↔ item.error ≠ none) ∧
  (∀ e, item.error = some e → e ≠ "")

theorem ItemInv_fresh (path : String) : ItemInv { filepath := path } := by
  refine ⟨by simp, by simp, by simp, by simp⟩

theorem resetItem_inv {item : BatchItem} (h : ItemInv item) :
    ItemInv (resetItem item) ∧
      ((resetItem item).status = BatchStatus.pending ∨
        (resetItem item).status = BatchStatus.complete) := by
  obtain ⟨hproc, hres, herr, hne⟩ := h
  unfold resetItem
  by_cases hs : item.status = BatchStatus.error ∨ item.status = BatchStatus.cancelled
  · simp only [hs, if_true]
    exact ⟨⟨by simp, by simpa using hres, by simp, by simp⟩, by simp⟩
  · simp only [hs, if_false]
    refine ⟨⟨hproc, hres, herr, hne⟩, ?_⟩
    push_neg at hs
    cases hst : item.status <;> simp_all

theorem progressUpdate_fields (pm : Option (ℕ × String)) (item : BatchItem) :
    (progressUpdate pm item).status = item.status ∧
      (progressUpdate pm item).result = item.result ∧
      (progressUpdate pm item).error = item.error ∧
      (progressUpdate pm item).filepath = item.filepath := by
  rcases pm with _ | ⟨p, m⟩ <;> simp [progressUpdate]

theorem afterWait_inv {o : PipeOutcome} {c : Bool} {item : BatchItem}
    (hres : ∀ r, item.result = some r → r.segments ≠ [])
    (herrnone : item.error = none)
    (ho : ∀ r, o = .ok r → r.segments ≠ []) :
    ItemInv (afterWait o c item) ∧
      (afterWait o c item).status ≠ BatchStatus.pending := by
  unfold afterWait
  cases c with
  | true =>
    simp only [if_true]
    exact ⟨⟨by simp, by simpa using hres, by simp [herrnone], by simp [herrnone]⟩, by simp⟩
  | false =>
    simp only [Bool.false_eq_true, if_false]
    rcases o with r | e
    · have hrseg : r.segments ≠ [] := ho r rfl
      refine ⟨⟨by simp, ?_, by simp [herrnone], by simp [herrnone]⟩, by simp⟩
      intro r' hr'
      have heq : some r = some r' := hr'
      cases heq
      exact hrseg
    · by_cases he : e = ""
      · simp only [he, ne_eq, not_true_eq_false, if_false]
        exact ⟨⟨by simp, by simp, by simp [herrnone], by simp [herrnone]⟩, by simp⟩
      · simp only [ne_eq, he, not_false_eq_true, if_true]
        refine ⟨⟨by simp, by simpa using hres, by simp, ?_⟩, by simp⟩
        intro e' he'
        have heq : some e = some e' := he'
        cases heq
        exact he

theorem processItem_inv {o : PipeOutcome} {pm : Option (ℕ × String)} {c : Bool}
    {item : BatchItem} (h : ItemInv item)
    (hp : item.status = BatchStatus.pending)
    (ho : ∀ r, o = .ok r → r.segments ≠ []) :
    ItemInv (processItem o pm c item) ∧
      (processItem o pm c item).status ≠ BatchStatus.pending := by
  obtain ⟨hproc, hres, herr, hne⟩ := h
  have herrnone : item.error = none := by
    by_contra hcon
    exact absurd (herr.mpr hcon) (by simp [hp])
  unfold processItem
  obtain ⟨h1, h2, h3, h4⟩ :=
    progressUpdate_fields pm { item with status := BatchStatus.processing }
  exact afterWait_inv (by rw [h2]; simpa using hres) (by rw [h3]; simpa using herrnone) ho

theorem workerStep_inv {env : WorkerEnv} (henv : ValidWorkerEnv env) (k : ℕ)
    {item : BatchItem} (h : ItemInv item)
    (hpc : item.status = BatchStatus.pending ∨ item.status = BatchStatus.complete) :
    ItemInv (workerStep env k item) := by
  obtain ⟨hproc, hres, herr, hne⟩ := h
  have herrnone : item.error = none := by
    by_contra hcon
    have := herr.mpr hcon
    rcases hpc with hp | hp <;> simp [hp] at this
  unfold workerStep
  by_cases hc : cancelledAt env.cancelFrom (2 * k) = true
  · simp only [hc, if_true]
    exact ⟨by simp, by simpa using hres, by simp [herrnone], by simp [herrnone]⟩
  · rw [Bool.not_eq_true] at hc
    by_cases hp : item.status = BatchStatus.pending
    · simp only [hc, hp, Bool.false_eq_true, if_false, ne_eq, not_true_eq_false, ite_false]
      exact (processItem_inv ⟨hproc, hres, herr, hne⟩ hp
        (ValidOutcome_ok (henv k))).1
    · simp only [hc, hp, Bool.false_eq_true, if_false, ne_eq, not_false_eq_true, ite_true]
      exact ⟨hproc, hres, herr, hne⟩

theorem runWorker_inv {env : WorkerEnv} (henv : ValidWorkerEnv env)
    {items : List BatchItem}
    (h : ∀ item ∈ items, ItemInv item ∧
      (item.status = BatchStatus.pending ∨ item.status = BatchStatus.complete)) :
    ∀ item ∈ (runWorker env items).1, ItemInv item := by
  intro item hmem
  obtain ⟨j, hj⟩ := List.mem_iff_get?.mp hmem
  rw [runWorker_fst_get? env items j] at hj
  rcases hij : items.get? j with _ | it
  · rw [hij] at hj; cases hj
  · rw [hij] at hj
    replace hj : some (workerStep env j it) = some item := hj
    cases hj
    have hit : it ∈ items := List.get?_mem hij
    obtain ⟨hinv, hpc⟩ := h it hit
    exact workerStep_inv henv j hinv hpc

/-- Every reachable batch state satisfies the per-item invariant. -/
theorem reachable_inv {s : BatchState} (h : Reachable s) :
    ∀ item ∈ s.items, ItemInv item := by
  induction h with
  | init => intro item hmem; exact absurd hmem (by simp)
  | add s path isfile _ ih =>
    intro item hmem
    unfold addFile at hmem
    by_cases h1 : isfile = false
    · simp only [h1] at hmem
      exact ih item hmem
    · rw [Bool.not_eq_false] at h1
      by_cases h2 : s.items.any (fun it => it.filepath = path) = true
      · simp only [h1, h2, Bool.not_true, Bool.false_eq_true, if_false, if_true] at hmem
        exact ih item hmem
      · simp only [h1, h2, Bool.not_true, Bool.false_eq_true, if_false] at hmem
        rcases List.mem_append.mp hmem with hold | hnew
        · exact ih item hold
        · rw [List.mem_singleton.mp hnew]
          exact ItemInv_fresh path
  | remove s index _ ih =>
    intro item hmem
    unfold removeItem at hmem
    split at hmem
    · split at hmem
      · exact ih item hmem
      · exact ih item ((List.eraseIdx_sublist s.items index).subset hmem)
    · exact ih item hmem
  | clearCompleted s _ ih =>
    intro item hmem
    exact ih item (List.mem_of_mem_filter hmem)
  | run s env _ henv ih =>
    intro item hmem
    unfold startRun at hmem
    split at hmem
    · exact ih item hmem
    · split at hmem
      · exact ih item hmem
      · refine runWorker_inv henv ?_ item hmem
        intro it hit
        obtain ⟨it0, hit0, rfl⟩ := List.mem_map.mp hit
        exact resetItem_inv (ih it0 hit0)

/-! ## Concrete scenarios used by the claim theorems -/

/-- The boundary scenario of §8.5 of the spec: diarization intervals
`[0,12,"Speaker 1"]` and `[12,20,"Speaker 2"]`. -/
def exDiar : DiarizationResult :=
  { segments :=
      [{ start := 0, «end» := 12, speaker := "Speaker 1" },
       { start := 12, «end» := 20, speaker := "Speaker 2" }]
    num_speakers := 2
    duration := 20 }

/-- Segments whose positionally last `end` (12.3) is smaller than the
maximal `end` (30.75). -/
def exC8Segments : List Segment :=
  [{ start := 0, «end» := 5, text := "a" },
   { start := 6, «end» := 123 / 4, text := "b" },
   { start := 31, «end» := 123 / 10, text := "c" }]

/-- A one-segment transcription result as the single-job pipeline builds it
from the raw engine segment `(0, 100, "t")` (centiseconds). -/
def exR0 : TranscriptionResult :=
  { segments := [{ start := 0, «end» := 1, text := "t" }]
    language := "detected"
    duration := 1 }

/-- Pipeline environment for a successful run on file `"b"`. -/
def exEnvOk : TransEnv :=
  { filepath := "b", model_name := "base", language := "auto", translate := false,
    enable_diarization := false, fileIsFile := true, convertSucceeds := false,
    cancelFrom := none, modelLoad := .ok (), transcribeRaw := .ok [(0, 100, "t")],
    diarization := none }

/-- Pipeline environment for a run on a missing file `"a"`. -/
def exEnvMissing : TransEnv :=
  { exEnvOk with filepath := "a", fileIsFile := false }

theorem exEnvOk_delivers : deliveredOutcome exEnvOk = some (.ok exR0) := by
  norm_num [deliveredOutcome, runTranscription, exEnvOk, cancelledAt, finishSegments,
    FORMATS_NEEDING_CONVERSION, fileExt, basename, finallyCleanup, finishAndCleanup, exR0]

theorem exEnvMissing_delivers :
    deliveredOutcome exEnvMissing = some (.err "File not found: a") := rfl

/-- Worker environment: the first item's pipeline fails on a missing file,
every other item's pipeline succeeds with `exR0`; no cancellation. -/
def exWEnv1 : WorkerEnv :=
  { out := fun i => if i = 0 then .err "File not found: a" else .ok exR0
    prog := fun _ => none
    cancelFrom := none }

/-- Worker environment: every pipeline would succeed with `exR0`, but the
cancellation flag is set from fine-grained time 1 on (observed by the
in-flight item's after-wait check and every later loop check). -/
def exWEnv2 : WorkerEnv :=
  { out := fun _ => .ok exR0
    prog := fun _ => none
    cancelFrom := some 1 }

/-- Like `exWEnv2` but with the flag already set at the first loop check. -/
def exWEnv3 : WorkerEnv :=
  { exWEnv2 with cancelFrom := some 0 }

theorem exWEnv1_valid : ValidWorkerEnv exWEnv1 := by
  intro i
  by_cases hi : i = 0
  · exact ⟨exEnvMissing, by rw [exEnvMissing_delivers]; simp [exWEnv1, hi]⟩
  · exact ⟨exEnvOk, by rw [exEnvOk_delivers]; simp [exWEnv1, hi]⟩

theorem exWEnv2_valid : ValidWorkerEnv exWEnv2 := by
  intro i
  exact ⟨exEnvOk, by rw [exEnvOk_delivers]; simp [exWEnv2]⟩

/-- Batch of files `"a"` and `"b"` after a first full run in which `"a"`
failed and `"b"` completed. -/
def exState3 : BatchState :=
  (startRun exWEnv1 (addFile true (addFile true { items := [], running := false } "a").1 "b").1).1

/-- `exState3` after a second run cancelled while its first item was in
flight. -/
def exState4 : BatchState := (startRun exWEnv2 exState3).1

theorem exState3_reachable : Reachable exState3 :=
  Reachable.run _ _ (Reachable.add _ _ _ (Reachable.add _ _ _ Reachable.init)) exWEnv1_valid

theorem exState4_reachable : Reachable exState4 :=
  Reachable.run _ _ exState3_reachable exWEnv2_valid

/-! ## Claim theorems -/

/-- C2, counterexample: in the single-job pipeline's merge
(`TranscriptionWorker._add_speaker_labels`), a segment matched by neither the
midpoint lookup nor the start-time lookup keeps an absent (`none`) speaker
label — not the literal `"Unknown"` the claim requires. -/
theorem C2_counterexample :
    (addSpeakerLabels [{ start := 0, «end» := 1, text := "hi" }]
        { segments := [], num_speakers := 0, duration := 0 }).map Segment.speaker = [none] ∧
    ([none] : List (Option String)) ≠ [some "Unknown"] := by
  constructor
  · simp [addSpeakerLabels, DiarizationResult.get_speaker_at, getSpeakerAtGo]
  · simp

/-- C2, amended: the single-job pipeline's merge labels each segment with the
speaker active at its midpoint, else the speaker active at its start, else
leaves the label absent (`none`); the `"Unknown"` default exists only in the
standalone `merge_transcription_with_diarization` helper. -/
theorem C2_amended_theorem :
    (∀ (segs : List Segment) (d : DiarizationResult) (j : ℕ) (h : j < segs.length)
       (h2 : j < (addSpeakerLabels segs d).length),
       ((addSpeakerLabels segs d).get ⟨j, h2⟩).text = (segs.get ⟨j, h⟩).text ∧
       ((addSpeakerLabels segs d).get ⟨j, h2⟩).start = (segs.get ⟨j, h⟩).start ∧
       ((addSpeakerLabels segs d).get ⟨j, h2⟩).«end» = (segs.get ⟨j, h⟩).«end» ∧
       ((∃ s, d.get_speaker_at (((segs.get ⟨j, h⟩).start + (segs.get ⟨j, h⟩).«end») / 2) =
              some s ∧
            ((addSpeakerLabels segs d).get ⟨j, h2⟩).speaker = some s) ∨
        (d.get_speaker_at (((segs.get ⟨j, h⟩).start + (segs.get ⟨j, h⟩).«end») / 2) = none ∧
            ((addSpeakerLabels segs d).get ⟨j, h2⟩).speaker =
              d.get_speaker_at (segs.get ⟨j, h⟩).start))) ∧
    (∀ (d : DiarizationResult) (s e : ℚ) (text : String),
       d.get_speaker_at ((s + e) / 2) = none →
       d.get_speaker_at s = none →
       merge_transcription_with_diarization [(s, e, text)] d = [(s, e, text, "Unknown")]) := by
  constructor
  · intro segs d j h h2
    unfold addSpeakerLabels
    simp only [List.get_eq_getElem, List.getElem_map]
    refine ⟨trivial, trivial, trivial, ?_⟩
    rcases hmid : d.get_speaker_at ((segs[j].start + segs[j].«end») / 2) with _ | sp
    · right
      exact ⟨rfl, rfl⟩
    · left
      exact ⟨sp, rfl, rfl⟩
  · intro d s e text h1 h2
    simp [merge_transcription_with_diarization, h1, h2]

/-- C2, witness for the amended theorem at a concrete segment and an empty
diarization result. -/
theorem C2_amended_witness :
    ((addSpeakerLabels [{ start := 0, «end» := 1, text := "hi" }]
        { segments := [], num_speakers := 0, duration := 0 }).get ⟨0, by simp [addSpeakerLabels]⟩).text = "hi" ∧
    merge_transcription_with_diarization [(0, 1, "hi")]
        { segments := [], num_speakers := 0, duration := 0 } = [(0, 1, "hi", "Unknown")] := by
  constructor
  · exact (C2_amended_theorem.1 [{ start := 0, «end» := 1, text := "hi" }]
      { segments := [], num_speakers := 0, duration := 0 } 0 (by simp) (by simp [addSpeakerLabels])).1
  · exact C2_amended_theorem.2 { segments := [], num_speakers := 0, duration := 0 } 0 1 "hi" rfl rfl

theorem getSpeakerAtGo_isSome {t : ℚ} :
    ∀ {l : List SpeakerSegment} {sg : SpeakerSegment},
      sg ∈ l → sg.start ≤ t → t ≤ sg.«end» → (getSpeakerAtGo t l).isSome = true := by
  intro l
  induction l with
  | nil => intro sg h; exact absurd h (by simp)
  | cons a rest ih =>
    intro sg hmem h1 h2
    unfold getSpeakerAtGo
    by_cases hcov : a.start ≤ t ∧ t ≤ a.«end»
    · simp [hcov]
    · rcases List.mem_cons.mp hmem with rfl | hmem2
      · exact absurd ⟨h1, h2⟩ hcov
      · simpa [hcov] using ih hmem2 h1 h2

/-- C7: the diarization lookup is inclusive on both interval ends; at the
shared boundary 12.0 of `[0,12]`/`[12,20]` the first covering interval in
list order (Speaker 1) wins, both directly and through the merge of the
segment `[10,14]`; and the merge is a deterministic function of its
inputs. -/
theorem C7_theorem :
    exDiar.get_speaker_at 12 = some "Speaker 1" ∧
    merge_transcription_with_diarization [(10, 14, "x")] exDiar =
      [(10, 14, "x", "Speaker 1")] ∧
    (∀ (d : DiarizationResult) (sg : SpeakerSegment) (rest : List SpeakerSegment) (t : ℚ),
      d.segments = sg :: rest → sg.start ≤ t → t ≤ sg.«end» →
      d.get_speaker_at t = some sg.speaker) ∧
    (∀ (d : DiarizationResult) (sg : SpeakerSegment) (t : ℚ),
      sg ∈ d.segments → sg.start ≤ t → t ≤ sg.«end» →
      (d.get_speaker_at t).isSome = true) ∧
    (∀ (ts₁ ts₂ : List (ℚ × ℚ × String)) (d₁ d₂ : DiarizationResult),
      ts₁ = ts₂ → d₁ = d₂ →
      merge_transcription_with_diarization ts₁ d₁ =
        merge_transcription_with_diarization ts₂ d₂) := by
  refine ⟨?_, ?_, ?_, ?_, ?_⟩
  · simp [DiarizationResult.get_speaker_at, exDiar, getSpeakerAtGo]
  · norm_num [merge_transcription_with_diarization, DiarizationResult.get_speaker_at,
      exDiar, getSpeakerAtGo]
  · intro d sg rest t hseg h1 h2
    unfold DiarizationResult.get_speaker_at
    rw [hseg]
    simp [getSpeakerAtGo, h1, h2]
  · intro d sg t hmem h1 h2
    exact getSpeakerAtGo_isSome hmem h1 h2
  · intro ts₁ ts₂ d₁ d₂ h1 h2
    rw [h1, h2]

/-- C7, witness: the boundary lookup and the inclusivity part applied to the
concrete diarization result. -/
theorem C7_witness :
    exDiar.get_speaker_at 12 = some "Speaker 1" ∧
    (exDiar.get_speaker_at 20).isSome = true := by
  constructor
  · exact C7_theorem.1
  · exact C7_theorem.2.2.2.1 exDiar
      { start := 12, «end» := 20, speaker := "Speaker 2" } 20
      (by simp [exDiar]) (by norm_num) (by norm_num)

/-- C8: a successful result's `duration` is the `end` of the positionally
last segment, and on a list whose last `end` (12.3) is below the maximal
`end` (30.75) the duration is the positional value, not the maximum. -/
theorem C8_theorem :
    (∀ (segments : List Segment) (lang : String) (h : segments ≠ []),
      ∃ r, finishSegments segments lang = .ok r ∧
        r.duration = (segments.getLast h).«end») ∧
    (∃ r, finishSegments exC8Segments "en" = .ok r ∧ r.duration = 123 / 10 ∧
      ∃ sg ∈ exC8Segments, r.duration < sg.«end») := by
  constructor
  · intro segments lang h
    unfold finishSegments
    rw [dif_neg h]
    exact ⟨_, rfl, rfl⟩
  · refine ⟨{ segments := exC8Segments, language := "en", duration := 123 / 10 }, ?_, rfl,
      { start := 6, «end» := 123 / 4, text := "b" }, by simp [exC8Segments], by norm_num⟩
    unfold finishSegments
    rw [dif_neg (by simp [exC8Segments])]
    simp [exC8Segments, List.getLast]

/-- C8, witness: the positional-duration part applied to a concrete
two-segment list. -/
theorem C8_witness :
    ∃ r, finishSegments
        [{ start := 0, «end» := 1, text := "x" }, { start := 1, «end» := 2, text := "y" }]
        "en" = .ok r ∧
      r.duration = (([{ start := 0, «end» := 1, text := "x" },
        { start := 1, «end» := 2, text := "y" }] : List Segment).getLast (by simp)).«end» :=
  C8_theorem.1 _ "en" (by simp)

theorem finallyCleanup_temp (errs : List String) (res : Option TranscriptionResult)
    (tc : Bool) : (finallyCleanup errs res tc).tempExistsAtExit = false := by
  cases tc <;> simp [finallyCleanup]

theorem finishAndCleanup_temp (segments : List Segment) (lang : String) (tc : Bool) :
    (finishAndCleanup segments lang tc).tempExistsAtExit = false := by
  unfold finishAndCleanup
  split <;> apply finallyCleanup_temp

/-- C9: on every exit path of `TranscriptionWorker.run` — success, error
(including exceptions) and cancellation — a temporary converted WAV file the
run created no longer exists when `run` exits. -/
theorem C9_theorem (env : TransEnv) (_h : (runTranscription env).tempCreated = true) :
    (runTranscription env).tempExistsAtExit = false := by
  unfold runTranscription
  repeat' split
  all_goals first
    | apply finallyCleanup_temp
    | apply finishAndCleanup_temp

/-- Environment for a run on `/a/rec.mp4` that converts the file and is then
cancelled. -/
def exEnvConverted : TransEnv :=
  { exEnvOk with filepath := "/a/rec.mp4", convertSucceeds := true, cancelFrom := some 0 }

/-- C9, witness: a run that actually created the temporary WAV file leaves it
deleted at exit. -/
theorem C9_witness :
    (runTranscription exEnvConverted).tempCreated = true ∧
    (runTranscription exEnvConverted).tempExistsAtExit = false :=
  ⟨rfl, C9_theorem exEnvConverted rfl⟩

theorem afterWait_status (o : PipeOutcome) (c : Bool) (item : BatchItem) :
    (afterWait o c item).status ≠ BatchStatus.pending ∧
      (afterWait o c item).status ≠ BatchStatus.processing := by
  unfold afterWait
  cases c with
  | true => simp
  | false =>
    simp only [Bool.false_eq_true, if_false]
    rcases o with r | e
    · simp
    · by_cases he : e = "" <;> simp [he]

theorem workerStep_status {env : WorkerEnv} {k : ℕ} {item : BatchItem}
    (hproc : item.status ≠ BatchStatus.processing) :
    (workerStep env k item).status ≠ BatchStatus.pending ∧
      (workerStep env k item).status ≠ BatchStatus.processing := by
  by_cases hc : cancelledAt env.cancelFrom (2 * k) = true
  · rw [show workerStep env k item = { item with status := BatchStatus.cancelled } by
      unfold workerStep; simp [hc]]
    simp
  · rw [Bool.not_eq_true] at hc
    by_cases hp : item.status = BatchStatus.pending
    · rw [show workerStep env k item = processItem (env.out k) (env.prog k)
          (cancelledAt env.cancelFrom (2 * k + 1)) item by
        unfold workerStep; simp [hc, hp]]
      unfold processItem
      exact afterWait_status ..
    · rw [show workerStep env k item = item by unfold workerStep; simp [hc, hp]]
      exact ⟨hp, hproc⟩

theorem runWorker_get (env : WorkerEnv) (items : List BatchItem) (j : ℕ)
    (h : j < items.length) (h2 : j < (runWorker env items).1.length) :
    (runWorker env items).1.get ⟨j, h2⟩ = workerStep env j (items.get ⟨j, h⟩) := by
  have hq := runWorker_fst_get? env items j
  rw [List.get?_eq_get h2, List.get?_eq_get h] at hq
  exact Option.some.inj hq

theorem startedIndices_runWorker (env : WorkerEnv) (items : List BatchItem) :
    startedIndices (runWorker env items).2 = startedIndices (runWorkerGo env 0 items).2 := by
  unfold runWorker startedIndices
  rw [List.filterMap_append]
  simp

/-- C1, counterexample: after the first run of the batch `["a", "b"]` the
item `"b"` is Complete; cancelling a second run while `"a"` is in flight
overwrites `"b"` to Cancelled, so an already-Complete item does not retain
status Complete after cancellation completes. -/
theorem C1_counterexample :
    Reachable exState3 ∧
    exState3.items.map BatchItem.status = [BatchStatus.error, BatchStatus.complete] ∧
    exState4 = (startRun exWEnv2 exState3).1 ∧
    exState4.items.map BatchItem.status = [BatchStatus.cancelled, BatchStatus.cancelled] :=
  ⟨exState3_reachable, rfl, rfl, rfl⟩

/-- C1, amended: once a cancelled batch run completes, no item is left
Pending or Processing; a Pending item whose loop check observes the flag is
marked Cancelled; a Complete item whose loop check precedes the cancellation
is left untouched; but a Complete item whose loop check observes the flag is
overwritten to Cancelled. -/
theorem C1_amended_theorem :
    (∀ (env : WorkerEnv) (items : List BatchItem),
      (∀ item ∈ items, item.status ≠ BatchStatus.processing) →
      ∀ item ∈ (runWorker env items).1,
        item.status ≠ BatchStatus.pending ∧ item.status ≠ BatchStatus.processing) ∧
    (∀ (env : WorkerEnv) (items : List BatchItem) (j : ℕ) (h : j < items.length)
       (h2 : j < (runWorker env items).1.length),
      (items.get ⟨j, h⟩).status = BatchStatus.pending →
      cancelledAt env.cancelFrom (2 * j) = true →
      ((runWorker env items).1.get ⟨j, h2⟩).status = BatchStatus.cancelled) ∧
    (∀ (env : WorkerEnv) (items : List BatchItem) (j : ℕ) (h : j < items.length)
       (h2 : j < (runWorker env items).1.length),
      (items.get ⟨j, h⟩).status = BatchStatus.complete →
      cancelledAt env.cancelFrom (2 * j) = false →
      (runWorker env items).1.get ⟨j, h2⟩ = items.get ⟨j, h⟩) ∧
    (∀ (env : WorkerEnv) (items : List BatchItem) (j : ℕ) (h : j < items.length)
       (h2 : j < (runWorker env items).1.length),
      (items.get ⟨j, h⟩).status = BatchStatus.complete →
      cancelledAt env.cancelFrom (2 * j) = true →
      ((runWorker env items).1.get ⟨j, h2⟩).status = BatchStatus.cancelled) := by
  refine ⟨?_, ?_, ?_, ?_⟩
  · intro env items hproc item hmem
    obtain ⟨j, hj⟩ := List.mem_iff_get?.mp hmem
    rw [runWorker_fst_get? env items j] at hj
    rcases hij : items.get? j with _ | it
    · rw [hij] at hj; cases hj
    · rw [hij] at hj
      replace hj : some (workerStep env j it) = some item := hj
      cases hj
      exact workerStep_status (hproc it (List.get?_mem hij))
  · intro env items j h h2 hp hc
    rw [runWorker_get env items j h h2]
    unfold workerStep
    simp [hc]
  · intro env items j h h2 hp hc
    rw [runWorker_get env items j h h2]
    unfold workerStep
    rw [hc, hp]
    simp
  · intro env items j h h2 hp hc
    rw [runWorker_get env items j h h2]
    unfold workerStep
    simp [hc]

/-- A one-item list holding a Complete item with result `exR0`. -/
def exCompleteItems : List BatchItem :=
  [{ filepath := "b", status := BatchStatus.complete, progress := 100,
     result := some exR0 }]

/-- C1, witness for the amended theorem: a Complete item is overwritten to
Cancelled when the flag is up at its loop check (`exWEnv3`), and retained
when it is not (`exWEnv2`). -/
theorem C1_amended_witness :
    ((runWorker exWEnv3 exCompleteItems).1.get
        ⟨0, by rw [runWorker_fst_length]; simp [exCompleteItems]⟩).status =
      BatchStatus.cancelled ∧
    (runWorker exWEnv2 exCompleteItems).1.get
        ⟨0, by rw [runWorker_fst_length]; simp [exCompleteItems]⟩ =
      exCompleteItems.get ⟨0, by simp [exCompleteItems]⟩ := by
  constructor
  · exact C1_amended_theorem.2.2.2 exWEnv3 exCompleteItems 0
      (by simp [exCompleteItems]) _ rfl rfl
  · exact C1_amended_theorem.2.2.1 exWEnv2 exCompleteItems 0
      (by simp [exCompleteItems]) _ rfl rfl

/-- Pipeline environment in which the cancellation flag is observed at the
post-transcribe checkpoint (`transcriber.py` line 171): the run returns
silently, emitting neither `finished` nor `error`. -/
def exEnvSilent : TransEnv :=
  { exEnvOk with cancelFrom := some 3 }

/-- C3, code bug: when cancellation is observed at a single-job checkpoint
before any emission, the pipeline delivers no terminal callback at all
(`deliveredOutcome = none`), so `BatchWorker._process_item` blocks forever on
`finished_event.wait()` and `batch_finished` is emitted zero times — the
same environment without cancellation delivers a result. -/
theorem C3_code_bug :
    deliveredOutcome exEnvSilent = none ∧
    deliveredOutcome { exEnvSilent with cancelFrom := none } = some (.ok exR0) := by
  constructor
  · rfl
  · exact exEnvOk_delivers

/-- C4: a pipeline reaching the end with zero segments errors with the
no-speech message; a successful `finishSegments` outcome never carries an
empty segment list; no emitted result of `TranscriptionWorker.run` has an
empty segment list; and in every reachable batch state a Complete item's
stored result has at least one segment. -/
theorem C4_theorem :
    (∀ lang, finishSegments [] lang = .err "No speech detected in the audio file.") ∧
    (∀ (segments : List Segment) (lang : String) (r : TranscriptionResult),
      finishSegments segments lang = .ok r → r.segments ≠ []) ∧
    (∀ (env : TransEnv) (r : TranscriptionResult),
      (runTranscription env).emittedResult = some r → r.segments ≠ []) ∧
    (∀ s : BatchState, Reachable s → ∀ item ∈ s.items,
      item.status = BatchStatus.complete →
      ∀ r, item.result = some r → r.segments ≠ []) := by
  refine ⟨fun lang => rfl, ?_, ?_, ?_⟩
  · intro segments lang r h
    obtain ⟨hne, hseg, -⟩ := finishSegments_ok h
    rw [hseg]
    exact hne
  · intro env r h
    exact (runTranscription_result h).fst
  · intro s hs item hmem hstatus r hr
    exact (reachable_inv hs item hmem).2.1 r hr

/-- C4, witness: applied to the reachable state `exState3`, whose second item
is Complete with result `exR0`. -/
theorem C4_witness : exR0.segments ≠ [] :=
  C4_theorem.2.2.2 exState3 exState3_reachable
    (exState3.items.get ⟨1, by decide⟩) (exState3.items.get_mem ..) rfl exR0 rfl

/-- C5: `start` is a no-op when already running or on an empty queue; the
reset loop returns exactly the Error/Cancelled items to Pending with progress
0 and error cleared and leaves the others untouched; and the run emits
`item_started` for indices in strictly increasing order, exactly for the
items Pending at its start (and not yet cancelled), never touching the stored
result of a non-Pending (e.g. already-Complete) item. -/
theorem C5_theorem :
    (∀ (env : WorkerEnv) (s : BatchState), s.running = true → startRun env s = (s, [])) ∧
    (∀ (env : WorkerEnv) (s : BatchState), s.items = [] → startRun env s = (s, [])) ∧
    (∀ item : BatchItem,
      (item.status = BatchStatus.error ∨ item.status = BatchStatus.cancelled) →
      resetItem item =
        { item with status := BatchStatus.pending, progress := 0, error := none }) ∧
    (∀ item : BatchItem, item.status ≠ BatchStatus.error →
      item.status ≠ BatchStatus.cancelled → resetItem item = item) ∧
    (∀ (env : WorkerEnv) (items : List BatchItem),
      (startedIndices (runWorker env items).2).Pairwise (fun a b => a < b)) ∧
    (∀ (env : WorkerEnv) (items : List BatchItem) (j : ℕ),
      j ∈ startedIndices (runWorker env items).2 ↔
        ∃ h : j < items.length, (items.get ⟨j, h⟩).status = BatchStatus.pending ∧
          cancelledAt env.cancelFrom (2 * j) = false) ∧
    (∀ (env : WorkerEnv) (items : List BatchItem) (j : ℕ) (h : j < items.length)
       (h2 : j < (runWorker env items).1.length),
      (items.get ⟨j, h⟩).status ≠ BatchStatus.pending →
      j ∉ startedIndices (runWorker env items).2 ∧
      ((runWorker env items).1.get ⟨j, h2⟩).result = (items.get ⟨j, h⟩).result) := by
  have memiff : ∀ (env : WorkerEnv) (items : List BatchItem) (j : ℕ),
      j ∈ startedIndices (runWorker env items).2 ↔
        ∃ h : j < items.length, (items.get ⟨j, h⟩).status = BatchStatus.pending ∧
          cancelledAt env.cancelFrom (2 * j) = false := by
    intro env items j
    rw [startedIndices_runWorker, mem_startedIndices_runWorkerGo env items 0 j]
    constructor
    · rintro ⟨k, hk, rfl, hp, hcf⟩
      exact ⟨by simpa using hk, by simpa using hp, by simpa using hcf⟩
    · rintro ⟨h, hp, hcf⟩
      exact ⟨j, h, by omega, hp, by simpa using hcf⟩
  refine ⟨?_, ?_, ?_, ?_, ?_, memiff, ?_⟩
  · intro env s h
    unfold startRun
    rw [h]
    simp
  · intro env s h
    unfold startRun
    by_cases hr : s.running <;> simp [hr, h]
  · intro item h
    unfold resetItem
    rw [if_pos h]
  · intro item h1 h2
    unfold resetItem
    rw [if_neg (not_or.mpr ⟨h1, h2⟩)]
  · intro env items
    rw [startedIndices_runWorker]
    exact startedIndices_runWorkerGo_pairwise env items 0
  · intro env items j h h2 hnp
    constructor
    · intro hmem
      obtain ⟨h3, hp, -⟩ := (memiff env items j).mp hmem
      exact hnp hp
    · rw [runWorker_get env items j h h2]
      unfold workerStep
      by_cases hc : cancelledAt env.cancelFrom (2 * j) = true
      · simp [hc]
      · rw [Bool.not_eq_true] at hc
        have hnp2 : ¬(items.get ⟨j, h⟩).status = BatchStatus.pending := hnp
        simp only [List.get_eq_getElem] at hnp2
        simp [hc, hnp2]

/-- An already-running batch state with an empty queue. -/
def exRunningState : BatchState := { items := [], running := true }

/-- An errored item awaiting reset. -/
def exErroredItem : BatchItem :=
  { filepath := "x", status := BatchStatus.error, progress := 50,
    message := "m", result := none, error := some "boom" }

/-- C5, witness: no-op on a running batch, a concrete reset, and the
skip-without-touching behaviour on a Complete item. -/
theorem C5_witness :
    startRun exWEnv1 exRunningState = (exRunningState, []) ∧
    resetItem exErroredItem =
      { filepath := "x", status := BatchStatus.pending, progress := 0,
        message := "m", result := none, error := none } ∧
    (0 ∉ startedIndices (runWorker exWEnv1 exCompleteItems).2 ∧
      ((runWorker exWEnv1 exCompleteItems).1.get
          ⟨0, by rw [runWorker_fst_length]; simp [exCompleteItems]⟩).result =
        (exCompleteItems.get ⟨0, by simp [exCompleteItems]⟩).result) := by
  refine ⟨C5_theorem.1 exWEnv1 exRunningState rfl, ?_, ?_⟩
  · exact C5_theorem.2.2.1 _ (Or.inl rfl)
  · exact C5_theorem.2.2.2.2.2.2 exWEnv1 exCompleteItems 0
      (by simp [exCompleteItems]) _ (by simp [exCompleteItems, exR0])

/-- C3-support and C6-support states are built above; C6 counterexample:
after the cancelled second run (`exState4`, reachable), the item `"b"` is
Cancelled yet still carries its result `exR0` — so "result present iff
status Complete" fails in a reachable state. -/
theorem C6_counterexample :
    Reachable exState4 ∧
    exState4.items.map (fun item => (item.status, item.result)) =
      [(BatchStatus.cancelled, none), (BatchStatus.cancelled, some exR0)] :=
  ⟨exState4_reachable, rfl⟩

/-- C6, amended: in every reachable batch state, the error field holds a
non-empty string exactly when the status is Error, and every stored result
has at least one segment; result presence, however, does not imply status
Complete (a cancelled run keeps an overwritten Complete item's result). -/
theorem C6_amended_theorem (s : BatchState) (hs : Reachable s) :
    ∀ item ∈ s.items,
      (item.status = BatchStatus.error ↔ item.error ≠ none) ∧
      (∀ e, item.error = some e → e ≠ "") ∧
      (∀ r, item.result = some r → r.segments ≠ []) := by
  intro item hmem
  obtain ⟨h1, h2, h3, h4⟩ := reachable_inv hs item hmem
  exact ⟨h3, h4, h2⟩

/-- C6, witness for the amended theorem: the Error item of the reachable
state `exState3`. -/
theorem C6_amended_witness :
    (exState3.items.get ⟨0, by decide⟩).status = BatchStatus.error ↔
      (exState3.items.get ⟨0, by decide⟩).error ≠ none :=
  (C6_amended_theorem exState3 exState3_reachable _ (exState3.items.get_mem ..)).1

/-- C10: the output path `export_all` derives depends only on the input's
base name (plus format), so two Complete items whose paths share a base name
are exported to the same path: the created-files list holds that path twice
and the file holds the later item's export. -/
theorem C10_theorem :
    (∀ dir fmt p q, basename p = basename q →
      outputPathFor dir fmt p = outputPathFor dir fmt q) ∧
    (∀ (fs : String → Option (TranscriptionResult × String)) (dir fmt p1 p2 : String)
       (r1 r2 : TranscriptionResult),
      basename p1 = basename p2 → fmt ∈ EXPORT_FORMAT_KEYS →
      (exportAll fs
          [{ filepath := p1, status := BatchStatus.complete, progress := 100,
             result := some r1 },
           { filepath := p2, status := BatchStatus.complete, progress := 100,
             result := some r2 }] dir fmt).1 =
        [outputPathFor dir fmt p1, outputPathFor dir fmt p1] ∧
      (exportAll fs
          [{ filepath := p1, status := BatchStatus.complete, progress := 100,
             result := some r1 },
           { filepath := p2, status := BatchStatus.complete, progress := 100,
             result := some r2 }] dir fmt).2 (outputPathFor dir fmt p1) =
        some (r2, fmt)) := by
  constructor
  · intro dir fmt p q h
    unfold outputPathFor
    rw [h]
  · intro fs dir fmt p1 p2 r1 r2 hb hfmt
    have hpath : outputPathFor dir fmt p2 = outputPathFor dir fmt p1 := by
      unfold outputPathFor
      rw [hb]
    unfold exportAll
    constructor <;> simp [exportAllGo, export_result_fs, hfmt, hpath]

/-- C10, witness: `/a/rec.mp4` and `/b/rec.mp4` exported as `txt` into
`/out` collide on `/out/rec.txt`; the second result wins. -/
theorem C10_witness :
    (exportAll (fun _ => none)
        [{ filepath := "/a/rec.mp4", status := BatchStatus.complete, progress := 100,
           result := some exR0 },
         { filepath := "/b/rec.mp4", status := BatchStatus.complete, progress := 100,
           result := some { exR0 with language := "en" } }] "/out" "txt").1 =
      [outputPathFor "/out" "txt" "/a/rec.mp4", outputPathFor "/out" "txt" "/a/rec.mp4"] ∧
    (exportAll (fun _ => none)
        [{ filepath := "/a/rec.mp4", status := BatchStatus.complete, progress := 100,
           result := some exR0 },
         { filepath := "/b/rec.mp4", status := BatchStatus.complete, progress := 100,
           result := some { exR0 with language := "en" } }] "/out" "txt").2
        (outputPathFor "/out" "txt" "/a/rec.mp4") =
      some ({ exR0 with language := "en" }, "txt") :=
  C10_theorem.2 (fun _ => none) "/out" "txt" "/a/rec.mp4" "/b/rec.mp4"
    exR0 { exR0 with language := "en" } rfl (by decide)

end Whispered
